import Mathlib

/-!
Verification development for the load-and-query pipeline
(`db_manager.py`, `main.py`, `runtime_handler.py`).

The SQLite store is modelled as an explicit state (`DbState`); every
`DbManager` method becomes a pure function from the state to a new state
paired with an optional error, where returning an error models the
`except` branch that rolls the transaction back and re-raises.  Dates are
idealised as rationals: `julianday` is an arbitrary interpretation
`jd : String → ℚ` of birthday strings and the single consistently sampled
current instant is `now : ℚ`, so age arithmetic is exact rational
arithmetic as written in the SQL text.
-/

namespace Innowise

/-- A row of the `Rooms` table: `(id, name)`. -/
structure Room where
  id : Int
  name : String
deriving DecidableEq, Repr

/-- A row of the `Students` table: `(id, name, birthday, sex, room)`. -/
structure Student where
  id : Int
  name : String
  birthday : String
  sex : String
  room : Int
deriving DecidableEq, Repr

/-- The visible state of the SQLite store: which table definitions exist,
the rows of the two tables, and the names of the existing secondary
indexes. -/
structure DbState where
  tables : List String
  rooms : List Room
  students : List Student
  indexes : List String
deriving DecidableEq, Repr

/-- The store errors surfaced by the manager (`sqlite3.Error`); the only
one producible inside the model is the constraint violation. -/
inductive DbError where
  | integrityError
deriving DecidableEq, Repr

/-- A student tuple as passed to `insert_students`. -/
abbrev StudentTup := Int × String × String × String × Int

/-- Modelled from the spec: the repository contains no `CREATE TABLE`
statement, so the schema constraint "Room.id and Student.id are each
unique within their table; a duplicate insert attempt must fail the whole
batch" is taken from the spec.  `cursor.executemany` processes the batch
row by row inside the open transaction; a row whose key already exists in
the table raises `IntegrityError`. -/
def rawBulkInsert {α τ : Type} (key : α → Int) (ofTup : τ → α) :
    List α → List τ → Except DbError (List α)
  | cur, [] => .ok cur
  | cur, t :: rest =>
    if cur.any (fun r => key r == key (ofTup t)) then .error .integrityError
    else rawBulkInsert key ofTup (cur ++ [ofTup t]) rest

/-- Builds a `Rooms` row from an input tuple. -/
def roomOfTup (p : Int × String) : Room := ⟨p.1, p.2⟩

/-- Builds a `Students` row from an input tuple. -/
def studentOfTup (t : StudentTup) : Student :=
  ⟨t.1, t.2.1, t.2.2.1, t.2.2.2.1, t.2.2.2.2⟩

/-- `DbManager.insert_rooms`: begin transaction, `executemany` the batch,
commit; on any error roll back (the state reverts to the input state) and
re-raise. -/
def insert_rooms (s : DbState) (batch : List (Int × String)) :
    DbState × Option DbError :=
  match rawBulkInsert Room.id roomOfTup s.rooms batch with
  | .ok rs => ({ s with rooms := rs }, none)
  | .error e => (s, some e)

/-- `DbManager.insert_students`: same atomic-batch contract, keyed on
`Student.id`. -/
def insert_students (s : DbState) (batch : List StudentTup) :
    DbState × Option DbError :=
  match rawBulkInsert Student.id studentOfTup s.students batch with
  | .ok ss => ({ s with students := ss }, none)
  | .error e => (s, some e)

/-- Name of the secondary index on `Students (room)`. -/
def roomIdx : String := "idx_students_room"

/-- Name of the secondary index on `Students (birthday)`. -/
def bdayIdx : String := "idx_students_birthday"

/-- `DROP INDEX IF EXISTS n`. -/
def dropIndex (idxs : List String) (n : String) : List String :=
  idxs.filter (fun m => m != n)

/-- `CREATE INDEX IF NOT EXISTS n`. -/
def addIndex (idxs : List String) (n : String) : List String :=
  if idxs.contains n then idxs else idxs ++ [n]

/-- `DbManager.clear_tables`: one transaction deleting all `Students`
rows, then all `Rooms` rows, then dropping the two named indexes if
present; the table definitions are untouched.  None of these statements
can fail in the model, so the call always commits. -/
def clear_tables (s : DbState) : DbState × Option DbError :=
  ({ s with rooms := [], students := [],
            indexes := dropIndex (dropIndex s.indexes roomIdx) bdayIdx },
   none)

/-- `DbManager.create_indexes`: one transaction creating the two named
indexes if absent (`CREATE INDEX IF NOT EXISTS`). -/
def create_indexes (s : DbState) : DbState × Option DbError :=
  ({ s with indexes := addIndex (addIndex s.indexes roomIdx) bdayIdx },
   none)

/-! ### Query engine -/

/-- The students matching a room under the join condition
`Rooms.id = Students.room`. -/
def matchingStudents (students : List Student) (r : Room) : List Student :=
  students.filter (fun st => st.room == r.id)

/-- The left-join rows contributed by one room: its matched students, or
one row padded with a NULL student side when it has no match. -/
def joinBlock (students : List Student) (r : Room) :
    List (Room × Option Student) :=
  match matchingStudents students r with
  | [] => [(r, none)]
  | ms => ms.map (fun st => (r, some st))

/-- Row set of `Rooms LEFT JOIN Students ON Rooms.id = Students.room`:
every room keeps its matched students, a room with no match yields one
row padded with NULLs on the student side. -/
def leftJoinList (rooms : List Room) (students : List Student) :
    List (Room × Option Student) :=
  rooms.flatMap (joinBlock students)

/-- Left-join row set of the store. -/
def leftJoinRows (s : DbState) : List (Room × Option Student) :=
  leftJoinList s.rooms s.students

/-- Row set of `Rooms JOIN Students ON Rooms.id = Students.room`. -/
def innerJoinList (rooms : List Room) (students : List Student) :
    List (Room × Student) :=
  rooms.flatMap (fun r => (matchingStudents students r).map (fun st => (r, st)))

/-- Inner-join row set of the store. -/
def innerJoinRows (s : DbState) : List (Room × Student) :=
  innerJoinList s.rooms s.students

/-- The grouping keys of `GROUP BY Rooms.name` over the left join: the
distinct room names (every room contributes at least its padded row). -/
def groupNames (s : DbState) : List String := (s.rooms.map Room.name).dedup

/-- The grouping keys of `GROUP BY Rooms.name` over the inner join: the
distinct names among the inner-join rows. -/
def innerNames (s : DbState) : List String :=
  ((innerJoinRows s).map (fun p => p.1.name)).dedup

/-- The non-NULL student column of the left-join group of a name
(aggregates skip the padded NULL rows). -/
def groupStudents (s : DbState) (n : String) : List Student :=
  ((leftJoinRows s).filter (fun p => p.1.name == n)).filterMap Prod.snd

/-- The student column of the inner-join group of a name. -/
def innerGroupStudents (s : DbState) (n : String) : List Student :=
  ((innerJoinRows s).filter (fun p => p.1.name == n)).map Prod.snd

/-- `JULIANDAY('now') - JULIANDAY(Students.birthday)` for one student,
with `jd` the rational interpretation of `JULIANDAY` on birthday strings
and `now` the sampled current julian day. -/
def ageDays (jd : String → ℚ) (now : ℚ) (st : Student) : ℚ :=
  now - jd st.birthday

/-- `365.25` as an exact rational. -/
def yearDays : ℚ := 1461 / 4

/-- SQLite `ROUND(x, 3)`: half away from zero at the third decimal. -/
def round3 (x : ℚ) : ℚ :=
  if 0 ≤ x then ((⌊x * 1000 + 1 / 2⌋ : ℤ) : ℚ) / 1000
  else -(((⌊-(x * 1000) + 1 / 2⌋ : ℤ) : ℚ) / 1000)

/-- One output row of task 1: the room name with
`COUNT(Students.id)` over its left-join group (NULL ids not counted). -/
def task1Row (s : DbState) (n : String) : String × Nat :=
  (n, ((leftJoinRows s).filter (fun p => p.1.name == n)).countP
        (fun p => p.2.isSome))

/-- `ORDER BY students_count DESC` as a relation on task-1 rows. -/
def cntDesc (a b : String × Nat) : Prop := b.2 ≤ a.2

instance : DecidableRel cntDesc := fun a b =>
  inferInstanceAs (Decidable (b.2 ≤ a.2))

instance : IsTotal (String × Nat) cntDesc := ⟨fun a b => le_total b.2 a.2⟩

instance : IsTrans (String × Nat) cntDesc := ⟨fun _ _ _ h h' => le_trans h' h⟩

/-- `DbManager.task1`: occupancy query — name and student count per
`GROUP BY Rooms.name` group of the left join, ordered by count
descending. -/
def task1 (s : DbState) : List (String × Nat) :=
  List.insertionSort cntDesc ((groupNames s).map (task1Row s))

/-- `ROUND(AVG(JULIANDAY('now') - JULIANDAY(birthday)) / 365.25, 3)` over
a name's left-join group; `AVG` of zero non-NULL inputs is NULL. -/
def task2Avg (jd : String → ℚ) (now : ℚ) (s : DbState) (n : String) :
    Option ℚ :=
  match groupStudents s n with
  | [] => none
  | l => some (round3 ((l.map (ageDays jd now)).sum / (l.length : ℚ) / yearDays))

/-- `ORDER BY avg_students_age` (ascending) as a relation. -/
def avgAsc (a b : String × ℚ) : Prop := a.2 ≤ b.2

instance : DecidableRel avgAsc := fun a b =>
  inferInstanceAs (Decidable (a.2 ≤ b.2))

instance : IsTotal (String × ℚ) avgAsc := ⟨fun a b => le_total a.2 b.2⟩

instance : IsTrans (String × ℚ) avgAsc := ⟨fun _ _ _ h h' => le_trans h h'⟩

/-- `DbManager.task2`: youngest-average query — name-groups of the left
join whose average is not NULL, ordered by the rounded average ascending,
`LIMIT 5`. -/
def task2 (jd : String → ℚ) (now : ℚ) (s : DbState) : List (String × ℚ) :=
  (List.insertionSort avgAsc
    ((groupNames s).filterMap
      (fun n => (task2Avg jd now s n).map (fun a => (n, a))))).take 5

/-- Maximum of a list of rationals (`MAX` of a nonempty aggregate
column). -/
def qmax : List ℚ → ℚ
  | [] => 0
  | [a] => a
  | a :: b :: rest => max a (qmax (b :: rest))

/-- Minimum of a list of rationals (`MIN` of a nonempty aggregate
column). -/
def qmin : List ℚ → ℚ
  | [] => 0
  | [a] => a
  | a :: b :: rest => min a (qmin (b :: rest))

/-- `ROUND(MAX(days)/365.25 - MIN(days)/365.25, 3)` over a name's
inner-join group. -/
def task3Spread (jd : String → ℚ) (now : ℚ) (s : DbState) (n : String) : ℚ :=
  let days := (innerGroupStudents s n).map (ageDays jd now)
  round3 (qmax days / yearDays - qmin days / yearDays)

/-- `ORDER BY age_difference DESC` as a relation. -/
def spreadDesc (a b : String × ℚ) : Prop := b.2 ≤ a.2

instance : DecidableRel spreadDesc := fun a b =>
  inferInstanceAs (Decidable (b.2 ≤ a.2))

instance : IsTotal (String × ℚ) spreadDesc := ⟨fun a b => le_total b.2 a.2⟩

instance : IsTrans (String × ℚ) spreadDesc := ⟨fun _ _ _ h h' => le_trans h' h⟩

/-- `DbManager.task3`: age-spread query over the inner join, ordered by
the rounded spread descending, `LIMIT 5`. -/
def task3 (jd : String → ℚ) (now : ℚ) (s : DbState) : List (String × ℚ) :=
  (List.insertionSort spreadDesc
    ((innerNames s).map (fun n => (n, task3Spread jd now s n)))).take 5

/-- `COUNT(DISTINCT Students.sex)` over a name's left-join group (NULLs
of padded rows not counted). -/
def distinctSexCount (s : DbState) (n : String) : Nat :=
  ((groupStudents s n).map Student.sex).dedup.length

/-- `DbManager.task4`: mixed-sex query — names of left-join groups with
more than one distinct sex, in grouping order (no ORDER BY). -/
def task4 (s : DbState) : List String :=
  (groupNames s).filter (fun n => decide (1 < distinctSexCount s n))

/-! ### Claim-side (spec-worded) query descriptions

These re-state the queries in the amended claims' vocabulary: per distinct
room name, over the students assigned to any room carrying that name. -/

/-- The rooms carrying a given name. -/
def roomsNamed (s : DbState) (n : String) : List Room :=
  s.rooms.filter (fun r => r.name == n)

/-- The students assigned to any room carrying a given name, in store
order. -/
def semStudents (s : DbState) (n : String) : List Student :=
  s.students.filter (fun st => (roomsNamed s n).any (fun r => st.room == r.id))

/-- Claim-side occupancy count of a name: how many students are assigned
to a room with that name. -/
def occCount (s : DbState) (n : String) : Nat := (semStudents s n).length

/-- Claim-side task-1 row set: one pair per distinct room name. -/
def task1Sem (s : DbState) : List (String × Nat) :=
  (groupNames s).map (fun n => (n, occCount s n))

/-- Age of one student in years: `(now - birthday) / 365.25`. -/
def ageYears (jd : String → ℚ) (now : ℚ) (st : Student) : ℚ :=
  ageDays jd now st / yearDays

/-- Claim-side average age of a name-group: mean of the students' ages in
years, rounded to three decimals. -/
def semAvgAge (jd : String → ℚ) (now : ℚ) (s : DbState) (n : String) : ℚ :=
  round3 (((semStudents s n).map (ageYears jd now)).sum /
            ((semStudents s n).length : ℚ))

/-- Claim-side task-2 row set: one pair per distinct room name with at
least one student. -/
def task2Sem (jd : String → ℚ) (now : ℚ) (s : DbState) :
    List (String × ℚ) :=
  ((groupNames s).filter (fun n => decide (semStudents s n ≠ []))).map
    (fun n => (n, semAvgAge jd now s n))

/-- Claim-side age spread of a name-group: `max(age) - min(age)` in
years, rounded to three decimals. -/
def semSpread (jd : String → ℚ) (now : ℚ) (s : DbState) (n : String) : ℚ :=
  round3 (qmax ((semStudents s n).map (ageYears jd now)) -
          qmin ((semStudents s n).map (ageYears jd now)))

/-- Claim-side task-3 row set: one pair per distinct room name with at
least one student. -/
def task3Sem (jd : String → ℚ) (now : ℚ) (s : DbState) :
    List (String × ℚ) :=
  ((groupNames s).filter (fun n => decide (semStudents s n ≠ []))).map
    (fun n => (n, semSpread jd now s n))

/-- Claim-side distinct-sex count of a name-group. -/
def semSexCount (s : DbState) (n : String) : Nat :=
  ((semStudents s n).map Student.sex).dedup.length

/-- The store invariant that primary keys of `Rooms` are unique (enforced
by the schema on every reachable state). -/
def IdsNodup (s : DbState) : Prop := (s.rooms.map Room.id).Nodup

instance (s : DbState) : Decidable (IdsNodup s) :=
  inferInstanceAs (Decidable ((s.rooms.map Room.id).Nodup))

/-! ### Pipeline orchestration (`main.py`) -/

/-- The pipeline stages, in the order `main` attempts them. -/
inductive Stage where
  | readInputs
  | clearStore
  | insertRoomsStage
  | insertStudentsStage
  | createIndexesStage
  | runQueries
  | serializeStage
  | finalClear
deriving DecidableEq, Repr

/-- The canonical stage order of one pipeline run. -/
def pipelineOrder : List Stage :=
  [.readInputs, .clearStore, .insertRoomsStage, .insertStudentsStage,
   .createIndexesStage, .runQueries, .serializeStage, .finalClear]

/-- Outcome of one input-file read (`read_rooms_file` /
`read_students_file`): an exception, `None` for an empty file, or the
parsed tuple list. -/
inductive ReadOutcome (τ : Type) where
  | raise
  | emptyFile
  | parsed (data : List τ)
deriving DecidableEq, Repr

/-- Environment faults injected at the stages whose failures originate
outside the modelled store (I/O errors, malformed SQL, ...); the insert
stages fail from within the model itself. -/
structure Faults where
  clearFails : Bool
  indexFails : Bool
  queryFails : Bool
  outputFails : Bool
  finalClearFails : Bool
deriving DecidableEq, Repr

/-- The fault-free environment. -/
def noFaults : Faults := ⟨false, false, false, false, false⟩

/-- Operator message of the input-reading `except` branch. -/
def readFailMsg : String :=
  "Failed to read input files. Look logs for details."

/-- Operator message printed when the rooms file parses to `None`. -/
def roomsEmptyMsg : String := "Rooms file is empty."

/-- Operator message printed when the students file parses to `None`. -/
def studentsEmptyMsg : String := "Students file is empty."

/-- Operator message of the clear stages' `except` branch. -/
def clearFailMsg : String :=
  "Failed to clear the database. Look logs for details."

/-- Operator message of the insert stages' `except` branch. -/
def insertFailMsg : String :=
  "Failed to insert data in database. Look logs for details."

/-- Operator message of the index stage's `except` branch. -/
def indexFailMsg : String :=
  "Failed to create indexes. Look logs for details."

/-- Operator message of the query stage's `except` branch. -/
def queryFailMsg : String :=
  "Failed to perform tasks. Look logs for details."

/-- Operator message of the serialization stage's `except` branch. -/
def outputFailMsg (isXml : Bool) : String :=
  if isXml then "Failed to write results to XML file. Look logs for details."
  else "Failed to write results to JSON file. Look logs for details."

/-- Per-task line printed after serialization: the artifact path, or the
empty-data notice when the result set was empty. -/
def taskOutMsg (i : Nat) (len : Nat) (isXml : Bool) : String :=
  if len == 0 then
    "Task " ++ toString i ++
      " data is empty. Output file for this task will not be created."
  else
    "Task " ++ toString i ++ " output file path: task" ++ toString i ++
      (if isXml then "_output.xml." else "_output.json.")

/-- Result of one orchestrated run: the operator messages printed, the
stages attempted (in order, the failed one included), and the final store
state. -/
structure RunResult where
  msgs : List String
  attempted : List Stage
  finalDb : DbState
deriving Repr

/-- `main` of `main.py`: read both inputs inside one `try`, check the two
empty-signals, then clear, insert rooms, insert students, create indexes,
run the four queries, serialize each result, and optionally clear again;
each stage's `except` branch prints its message and returns, so a failed
stage is the last one attempted and nothing after it runs. -/
def mainRun (roomsRead : ReadOutcome (Int × String))
    (studentsRead : ReadOutcome StudentTup) (db : DbState) (f : Faults)
    (isXml : Bool) (dbc : Bool) (jd : String → ℚ) (now : ℚ) : RunResult :=
  match roomsRead with
  | .raise => ⟨[readFailMsg], [.readInputs], db⟩
  | .emptyFile =>
    match studentsRead with
    | .raise => ⟨[readFailMsg], [.readInputs], db⟩
    | _ => ⟨[roomsEmptyMsg], [.readInputs], db⟩
  | .parsed rooms =>
    match studentsRead with
    | .raise => ⟨[readFailMsg], [.readInputs], db⟩
    | .emptyFile => ⟨[studentsEmptyMsg], [.readInputs], db⟩
    | .parsed students =>
      if f.clearFails then
        ⟨[clearFailMsg], [.readInputs, .clearStore], db⟩
      else
        let db1 := (clear_tables db).1
        match insert_rooms db1 rooms with
        | (_, some _) =>
          ⟨[insertFailMsg], [.readInputs, .clearStore, .insertRoomsStage], db1⟩
        | (db2, none) =>
          match insert_students db2 students with
          | (_, some _) =>
            ⟨[insertFailMsg],
             [.readInputs, .clearStore, .insertRoomsStage,
              .insertStudentsStage], db2⟩
          | (db3, none) =>
            if f.indexFails then
              ⟨[indexFailMsg],
               [.readInputs, .clearStore, .insertRoomsStage,
                .insertStudentsStage, .createIndexesStage], db3⟩
            else
              let db4 := (create_indexes db3).1
              if f.queryFails then
                ⟨[queryFailMsg],
                 [.readInputs, .clearStore, .insertRoomsStage,
                  .insertStudentsStage, .createIndexesStage, .runQueries],
                 db4⟩
              else
                let lens := [(task1 db4).length, (task2 jd now db4).length,
                             (task3 jd now db4).length, (task4 db4).length]
                if f.outputFails then
                  ⟨[outputFailMsg isXml],
                   [.readInputs, .clearStore, .insertRoomsStage,
                    .insertStudentsStage, .createIndexesStage, .runQueries,
                    .serializeStage], db4⟩
                else
                  let printed :=
                    (List.range 4).map
                      (fun i => taskOutMsg (i + 1) (lens.getD i 0) isXml)
                  if dbc then
                    if f.finalClearFails then
                      ⟨printed ++ [clearFailMsg], pipelineOrder, db4⟩
                    else
                      ⟨printed, pipelineOrder, (clear_tables db4).1⟩
                  else
                    ⟨printed,
                     [.readInputs, .clearStore, .insertRoomsStage,
                      .insertStudentsStage, .createIndexesStage, .runQueries,
                      .serializeStage], db4⟩

/-! ### Concrete stores used by counterexamples and witnesses -/

/-- An empty store with both tables defined and no indexes. -/
def emptyDb : DbState := ⟨["Rooms", "Students"], [], [], []⟩

/-- A julianday interpretation used on concrete inputs: day 0 for the
birthday string `"b0"`, day `-3652.5` (ten years earlier) for `"b1"`,
day 0 for anything else. -/
def jdC (b : String) : ℚ := if b = "b1" then -(7305 / 2) else 0

/-- A concrete current instant: julian day `3652.5`, i.e. ten years after
day 0. -/
def nowC : ℚ := 7305 / 2

/-- Store with one room and one student whose `room` field references no
existing room id. -/
def orphanDb : DbState :=
  ⟨["Rooms", "Students"], [⟨1, "A"⟩], [⟨1, "Bob", "b0", "M", 2⟩], []⟩

/-- The same store without the orphan student. -/
def orphanFreeDb : DbState :=
  ⟨["Rooms", "Students"], [⟨1, "A"⟩], [], []⟩

/-- Store with two distinct rooms sharing the name `"A"`, one student in
each room. -/
def dupNameDb : DbState :=
  ⟨["Rooms", "Students"],
   [⟨1, "A"⟩, ⟨2, "A"⟩],
   [⟨1, "Alice", "b0", "F", 1⟩, ⟨2, "Bob", "b1", "M", 2⟩], []⟩

/-- A witness store: rooms `"A"`, `"B"`, `"C"` with two, two and one
students (the unit-test fixture of `db_manager_test.py`). -/
def fixtureDb : DbState :=
  ⟨["Rooms", "Students"],
   [⟨1, "Room A"⟩, ⟨2, "Room B"⟩, ⟨3, "Room C"⟩],
   [⟨1, "Alice", "b0", "F", 1⟩, ⟨2, "Bob", "b1", "M", 1⟩,
    ⟨3, "Charlie", "b0", "M", 2⟩, ⟨4, "Diana", "b1", "F", 2⟩,
    ⟨5, "Eve", "b0", "F", 3⟩], []⟩

/-! ### Bulk-insert lemmas -/

/-- A batch element whose key already collides with a row of the current
table makes the sequential bulk insert fail. -/
theorem rawBulkInsert_error_of_collision {α τ : Type} (key : α → Int)
    (ofTup : τ → α) :
    ∀ (batch : List τ) (cur : List α),
      (∃ t ∈ batch, ∃ r ∈ cur, key r = key (ofTup t)) →
      rawBulkInsert key ofTup cur batch = .error .integrityError := by
  intro batch
  induction batch with
  | nil => rintro cur ⟨t, ht, _⟩; exact absurd ht (List.not_mem_nil t)
  | cons t₀ rest ih =>
    rintro cur ⟨t, ht, r, hr, heq⟩
    rw [rawBulkInsert]
    by_cases hany : cur.any (fun r => key r == key (ofTup t₀))
    · rw [if_pos hany]
    · rw [if_neg hany]
      rcases List.mem_cons.mp ht with rfl | htr
      · refine absurd ?_ hany
        rw [List.any_eq_true]
        exact ⟨r, hr, beq_iff_eq.mpr heq⟩
      · exact ih _ ⟨t, htr, r, List.mem_append_left _ hr, heq⟩

/-- A batch whose keys are not pairwise distinct makes the sequential
bulk insert fail, from any current table. -/
theorem rawBulkInsert_error_of_dup {α τ : Type} (key : α → Int)
    (ofTup : τ → α) :
    ∀ (batch : List τ) (cur : List α),
      ¬ (batch.map (fun t => key (ofTup t))).Nodup →
      rawBulkInsert key ofTup cur batch = .error .integrityError := by
  intro batch
  induction batch with
  | nil => intro cur h; exact absurd List.nodup_nil h
  | cons t₀ rest ih =>
    intro cur h
    rw [List.map_cons, List.nodup_cons] at h
    push_neg at h
    rw [rawBulkInsert]
    by_cases hany : cur.any (fun r => key r == key (ofTup t₀))
    · rw [if_pos hany]
    · rw [if_neg hany]
      by_cases hmem : key (ofTup t₀) ∈ rest.map (fun t => key (ofTup t))
      · obtain ⟨t, htr, heq⟩ := List.mem_map.mp hmem
        exact rawBulkInsert_error_of_collision key ofTup _ _
          ⟨t, htr, ofTup t₀,
           List.mem_append_right _ (List.mem_singleton_self _), heq.symm⟩
      · exact ih _ (h hmem)

/-- A batch with pairwise distinct keys, none colliding with the current
table, is appended whole. -/
theorem rawBulkInsert_ok_of_nodup {α τ : Type} (key : α → Int)
    (ofTup : τ → α) :
    ∀ (batch : List τ) (cur : List α),
      (batch.map (fun t => key (ofTup t))).Nodup →
      (∀ t ∈ batch, ∀ r ∈ cur, key r ≠ key (ofTup t)) →
      rawBulkInsert key ofTup cur batch = .ok (cur ++ batch.map ofTup) := by
  intro batch
  induction batch with
  | nil => intro cur _ _; simp [rawBulkInsert]
  | cons t₀ rest ih =>
    intro cur hnd hdisj
    rw [List.map_cons, List.nodup_cons] at hnd
    rw [rawBulkInsert]
    have hany : ¬ cur.any (fun r => key r == key (ofTup t₀)) := by
      simp only [List.any_eq_true, beq_iff_eq, not_exists, not_and]
      exact fun r hr => hdisj t₀ (List.mem_cons_self t₀ rest) r hr
    rw [if_neg hany, ih _ hnd.2]
    · simp
    · intro t htr r hrmem
      rcases List.mem_append.mp hrmem with hc | hs
      · exact hdisj t (List.mem_cons_of_mem _ htr) r hc
      · rw [List.mem_singleton.mp hs]
        intro he
        exact hnd.1 (List.mem_map.mpr ⟨t, htr, he.symm⟩)

/-- C1: a batch of room tuples (likewise student tuples) containing a
duplicate id makes `insert_rooms` (`insert_students`) fail with the
integrity error, and the whole batch is rolled back: the store state
after the failed call is the pre-call state, so exactly the rows visible
before are visible afterwards. -/
theorem C1_duplicate_batch_atomic :
    (∀ (s : DbState) (batch : List (Int × String)),
        ¬ (batch.map Prod.fst).Nodup →
        insert_rooms s batch = (s, some DbError.integrityError) ∧
        ∀ r, r ∈ (insert_rooms s batch).1.rooms ↔ r ∈ s.rooms) ∧
    (∀ (s : DbState) (batch : List StudentTup),
        ¬ (batch.map Prod.fst).Nodup →
        insert_students s batch = (s, some DbError.integrityError) ∧
        ∀ st, st ∈ (insert_students s batch).1.students ↔ st ∈ s.students) := by
  constructor
  · intro s batch hdup
    have herr := rawBulkInsert_error_of_dup Room.id roomOfTup batch s.rooms hdup
    have heq : insert_rooms s batch = (s, some DbError.integrityError) := by
      rw [insert_rooms, herr]
    exact ⟨heq, fun r => by rw [heq]⟩
  · intro s batch hdup
    have herr :=
      rawBulkInsert_error_of_dup Student.id studentOfTup batch s.students hdup
    have heq : insert_students s batch = (s, some DbError.integrityError) := by
      rw [insert_students, herr]
    exact ⟨heq, fun st => by rw [heq]⟩

/-- Witness for C1 at a concrete duplicate batch. -/
theorem C1_duplicate_batch_atomic_witness :
    insert_rooms emptyDb [(1, "A"), (1, "B")] =
      (emptyDb, some DbError.integrityError) :=
  (C1_duplicate_batch_atomic.1 emptyDb [(1, "A"), (1, "B")] (by decide)).1

/-- C10: inserting an empty batch is a successful no-op: no error, and
the store — in particular the contents of both tables — is unchanged. -/
theorem C10_empty_batch_noop (s : DbState) :
    insert_rooms s [] = (s, none) ∧ insert_students s [] = (s, none) :=
  ⟨rfl, rfl⟩

/-- C4: after `clear_tables` (which always commits in the model), both
tables hold zero rows, neither named secondary index exists, and the
table definitions are exactly those of the starting state. -/
theorem C4_clear_tables_empties_store (s : DbState) :
    (clear_tables s).2 = none ∧
    (clear_tables s).1.rooms = [] ∧
    (clear_tables s).1.students = [] ∧
    roomIdx ∉ (clear_tables s).1.indexes ∧
    bdayIdx ∉ (clear_tables s).1.indexes ∧
    (clear_tables s).1.tables = s.tables := by
  refine ⟨rfl, rfl, rfl, ?_, ?_, rfl⟩
  · intro hmem
    have h := (List.mem_filter.mp (List.mem_filter.mp hmem).1).2
    simp at h
  · intro hmem
    have h := (List.mem_filter.mp hmem).2
    simp at h

/-! ### Index lemmas -/

/-- The created index is present afterwards. -/
theorem mem_addIndex_self (l : List String) (n : String) :
    n ∈ addIndex l n := by
  rw [addIndex]
  by_cases h : l.contains n
  · rw [if_pos h]; exact List.mem_of_elem_eq_true h
  · rw [if_neg h]
    exact List.mem_append_right _ (List.mem_singleton_self _)

/-- Existing indexes survive index creation. -/
theorem mem_addIndex_of_mem {l : List String} {m : String} (n : String)
    (h : m ∈ l) : m ∈ addIndex l n := by
  rw [addIndex]
  by_cases hc : l.contains n
  · rwa [if_pos hc]
  · rw [if_neg hc]; exact List.mem_append_left _ h

/-- Creating an index that already exists is a no-op. -/
theorem addIndex_of_mem {l : List String} {n : String} (h : n ∈ l) :
    addIndex l n = l := by
  rw [addIndex, if_pos (List.elem_eq_true_of_mem h)]

/-- Index creation preserves uniqueness of index names. -/
theorem nodup_addIndex {l : List String} (n : String) (h : l.Nodup) :
    (addIndex l n).Nodup := by
  rw [addIndex]
  by_cases hc : l.contains n
  · rwa [if_pos hc]
  · rw [if_neg hc]
    have hn : n ∉ l := fun hm => hc (List.elem_eq_true_of_mem hm)
    rw [← List.concat_eq_append]
    exact h.concat hn

/-- C8: `create_indexes` is idempotent: neither the first nor a second
call errors, and after the two calls exactly one index named
`idx_students_room` and exactly one named `idx_students_birthday` exist
(given that index names are unique in the starting state, as SQLite
guarantees). -/
theorem C8_create_indexes_idempotent (s : DbState)
    (h : s.indexes.Nodup) :
    (create_indexes s).2 = none ∧
    (create_indexes (create_indexes s).1).2 = none ∧
    (create_indexes (create_indexes s).1).1.indexes.count roomIdx = 1 ∧
    (create_indexes (create_indexes s).1).1.indexes.count bdayIdx = 1 := by
  have hroom1 : roomIdx ∈ addIndex (addIndex s.indexes roomIdx) bdayIdx :=
    mem_addIndex_of_mem bdayIdx (mem_addIndex_self _ _)
  have hbday1 : bdayIdx ∈ addIndex (addIndex s.indexes roomIdx) bdayIdx :=
    mem_addIndex_self _ _
  have hnd : (addIndex (addIndex s.indexes roomIdx) bdayIdx).Nodup :=
    nodup_addIndex _ (nodup_addIndex _ h)
  have hsecond :
      (create_indexes (create_indexes s).1).1.indexes =
        addIndex (addIndex s.indexes roomIdx) bdayIdx := by
    show addIndex (addIndex (addIndex (addIndex s.indexes roomIdx) bdayIdx)
        roomIdx) bdayIdx = _
    rw [addIndex_of_mem hroom1, addIndex_of_mem hbday1]
  refine ⟨rfl, rfl, ?_, ?_⟩
  · rw [hsecond]
    exact List.count_eq_one_of_mem hnd hroom1
  · rw [hsecond]
    exact List.count_eq_one_of_mem hnd hbday1

/-! ### Orphan students -/

/-- A student assigned to a room id carried by no room of the list joins
with nothing: the left-join row set ignores it. -/
theorem leftJoinList_cons_orphan (rooms : List Room)
    (students : List Student) (st : Student)
    (h : ∀ r ∈ rooms, st.room ≠ r.id) :
    leftJoinList rooms (st :: students) = leftJoinList rooms students := by
  induction rooms with
  | nil => rfl
  | cons r rest ih =>
    rw [leftJoinList, leftJoinList, List.flatMap_cons, List.flatMap_cons]
    have hm : matchingStudents (st :: students) r =
        matchingStudents students r := by
      rw [matchingStudents, matchingStudents, List.filter_cons, if_neg]
      simp only [beq_iff_eq]
      exact fun he => h r (List.mem_cons_self r rest) (by simpa using he)
    rw [joinBlock, joinBlock, hm]
    have := ih (fun r' hr' => h r' (List.mem_cons_of_mem r hr'))
    rw [leftJoinList, leftJoinList] at this
    rw [this]

/-- The inner-join analogue of `leftJoinList_cons_orphan`. -/
theorem innerJoinList_cons_orphan (rooms : List Room)
    (students : List Student) (st : Student)
    (h : ∀ r ∈ rooms, st.room ≠ r.id) :
    innerJoinList rooms (st :: students) = innerJoinList rooms students := by
  induction rooms with
  | nil => rfl
  | cons r rest ih =>
    rw [innerJoinList, innerJoinList, List.flatMap_cons, List.flatMap_cons]
    have hm : matchingStudents (st :: students) r =
        matchingStudents students r := by
      rw [matchingStudents, matchingStudents, List.filter_cons, if_neg]
      simp only [beq_iff_eq]
      exact fun he => h r (List.mem_cons_self r rest) (by simpa using he)
    rw [hm]
    have := ih (fun r' hr' => h r' (List.mem_cons_of_mem r hr'))
    rw [innerJoinList, innerJoinList] at this
    rw [this]

/-- C2 (amended): a student whose `room` field references no existing
`Room.id` is excluded from *all four* queries — `Rooms` is the left side
of every join, so the left joins drop unmatched students exactly as the
inner join does; adding such a student to any store changes none of the
four query results, so it contributes to no count or aggregate. -/
theorem C2_orphan_student_excluded_everywhere (jd : String → ℚ) (now : ℚ)
    (s : DbState) (st : Student) (h : st.room ∉ s.rooms.map Room.id) :
    task1 { s with students := st :: s.students } = task1 s ∧
    task2 jd now { s with students := st :: s.students } = task2 jd now s ∧
    task3 jd now { s with students := st :: s.students } = task3 jd now s ∧
    task4 { s with students := st :: s.students } = task4 s := by
  have hr : ∀ r ∈ s.rooms, st.room ≠ r.id := by
    intro r hrm he
    exact h (List.mem_map.mpr ⟨r, hrm, he.symm⟩)
  have hlj : leftJoinRows { s with students := st :: s.students } =
      leftJoinRows s :=
    leftJoinList_cons_orphan s.rooms s.students st hr
  have hij : innerJoinRows { s with students := st :: s.students } =
      innerJoinRows s :=
    innerJoinList_cons_orphan s.rooms s.students st hr
  have hgn : groupNames { s with students := st :: s.students } =
      groupNames s := rfl
  have hgs : ∀ n, groupStudents { s with students := st :: s.students } n =
      groupStudents s n := by
    intro n; rw [groupStudents, groupStudents, hlj]
  refine ⟨?_, ?_, ?_, ?_⟩
  · rw [task1, task1, hgn]
    congr 1
    apply List.map_congr_left
    intro n _
    rw [task1Row, task1Row, hlj]
  · rw [task2, task2, hgn]
    congr 2
    apply List.filterMap_congr
    intro n _
    rw [task2Avg, task2Avg, hgs]
  · rw [task3, task3]
    have hin : innerNames { s with students := st :: s.students } =
        innerNames s := by
      rw [innerNames, innerNames, hij]
    rw [hin]
    congr 2
    apply List.map_congr_left
    intro n _
    rw [task3Spread, task3Spread]
    rw [innerGroupStudents, innerGroupStudents, hij]
  · rw [task4, task4, hgn]
    apply List.filter_congr
    intro n _
    rw [distinctSexCount, distinctSexCount, hgs]

/-- Witness for C2 at a concrete store and orphan student. -/
theorem C2_orphan_student_excluded_everywhere_witness :
    task1 { orphanFreeDb with
              students := Student.mk 1 "Bob" "b0" "M" 2 ::
                orphanFreeDb.students } = task1 orphanFreeDb :=
  (C2_orphan_student_excluded_everywhere jdC nowC orphanFreeDb
    ⟨1, "Bob", "b0", "M", 2⟩ (by decide)).1

/-- Counterexample to C2 as stated: in a store whose single student
references the nonexistent room id 2, the left-join queries do *not*
include that student — occupancy reports count 0 for the only room, and
the youngest-average and mixed-sex queries return nothing — so the
student contributes to no count or aggregate. -/
theorem C2_counterexample :
    orphanDb.students.length = 1 ∧
    (orphanDb.students.map Student.room).inter
      (orphanDb.rooms.map Room.id) = [] ∧
    task1 orphanDb = [("A", 0)] ∧
    task2 jdC nowC orphanDb = [] ∧
    task3 jdC nowC orphanDb = [] ∧
    task4 orphanDb = [] := by
  refine ⟨rfl, rfl, ?_, ?_, ?_, rfl⟩ <;> decide

/-- Witness for C8 at a concrete store. -/
theorem C8_create_indexes_idempotent_witness :
    (create_indexes fixtureDb).2 = none ∧
    (create_indexes (create_indexes fixtureDb).1).2 = none ∧
    (create_indexes (create_indexes fixtureDb).1).1.indexes.count roomIdx = 1 ∧
    (create_indexes (create_indexes fixtureDb).1).1.indexes.count bdayIdx = 1 :=
  C8_create_indexes_idempotent fixtureDb (by decide)

/-! ### Grouping lemmas: the `GROUP BY Rooms.name` column of a group -/

/-- The length of a `filterMap` is the count of inputs it keeps. -/
theorem length_filterMap_eq_countP {α β : Type} (f : α → Option β) :
    ∀ l : List α, (l.filterMap f).length = l.countP (fun a => (f a).isSome)
  | [] => rfl
  | a :: l => by
    cases h : f a <;>
      simp [List.filterMap_cons, h, List.countP_cons,
            length_filterMap_eq_countP f l]

/-- Filtering by a disjunction of two predicates that never hold together
splits, up to permutation, into the two filters. -/
theorem filter_or_perm {α : Type} (p q : α → Bool) :
    ∀ l : List α, (∀ a ∈ l, ¬(p a = true ∧ q a = true)) →
      (l.filter (fun a => p a || q a)).Perm (l.filter p ++ l.filter q)
  | [], _ => by simp
  | a :: l, h => by
    have hl := filter_or_perm p q l
      (fun b hb => h b (List.mem_cons_of_mem a hb))
    rw [List.filter_cons, List.filter_cons, List.filter_cons]
    cases hp : p a with
    | true =>
      have hq : q a = false := by
        cases hq : q a with
        | true => exact absurd ⟨hp, hq⟩ (h a (List.mem_cons_self a l))
        | false => rfl
      simpa [hp, hq] using hl.cons a
    | false =>
      cases hq : q a with
      | true =>
        simp only [hp, hq, Bool.false_or, if_true, if_false]
        exact (hl.cons a).trans List.perm_middle.symm
      | false => simpa [hp, hq] using hl

/-- The student column recovered from the name-filtered rows of one
left-join block: everything if the room carries the name, nothing
otherwise. -/
theorem leftBlockContrib (r : Room) (n : String) :
    ∀ l : List Student,
      ((l.map (fun st => ((r, some st) : Room × Option Student))).filter
        (fun p => p.1.name == n)).filterMap Prod.snd =
        if r.name == n then l else []
  | [] => by cases hc : (r.name == n) <;> simp [hc]
  | m :: ms => by
    have ih := leftBlockContrib r n ms
    cases hc : (r.name == n) with
    | true =>
      simp only [hc, if_true] at ih ⊢
      simp [List.filter_cons, List.filterMap_cons, hc, ih]
    | false =>
      simp only [hc, if_false] at ih ⊢
      simp [List.filter_cons, hc, ih]

/-- The inner-join analogue of `leftBlockContrib`. -/
theorem innerBlockContrib (r : Room) (n : String) :
    ∀ l : List Student,
      ((l.map (fun st => ((r, st) : Room × Student))).filter
        (fun p => p.1.name == n)).map Prod.snd =
        if r.name == n then l else []
  | [] => by cases hc : (r.name == n) <;> simp [hc]
  | m :: ms => by
    have ih := innerBlockContrib r n ms
    cases hc : (r.name == n) with
    | true =>
      simp only [hc, if_true] at ih ⊢
      simp [List.filter_cons, hc, ih]
    | false =>
      simp only [hc, if_false] at ih ⊢
      simp [List.filter_cons, hc, ih]

/-- Extracting the non-NULL student column of the name-`n` rows of a left
join gives the matched students of the rooms named `n`, room by room. -/
theorem groupStudents_list (students : List Student) (n : String) :
    ∀ rooms : List Room,
      (((rooms.flatMap (joinBlock students)).filter
          (fun p => p.1.name == n)).filterMap Prod.snd) =
        (rooms.filter (fun r => r.name == n)).flatMap
          (matchingStudents students)
  | [] => rfl
  | r :: rooms => by
    rw [List.flatMap_cons, List.filter_append, List.filterMap_append,
        groupStudents_list students n rooms, List.filter_cons]
    have hblock : ((joinBlock students r).filter
        (fun p => p.1.name == n)).filterMap Prod.snd =
        if r.name == n then matchingStudents students r else [] := by
      rw [joinBlock]
      cases hm : matchingStudents students r with
      | nil =>
        cases hc : (r.name == n) <;> simp [List.filter_cons, hc]
      | cons m ms =>
        exact leftBlockContrib r n (m :: ms)
    rw [hblock]
    cases hc : (r.name == n) <;> simp [hc]

/-- The inner-join analogue of `groupStudents_list`. -/
theorem innerGroupStudents_list (students : List Student) (n : String) :
    ∀ rooms : List Room,
      (((rooms.flatMap (fun r => (matchingStudents students r).map
          (fun st => (r, st)))).filter
            (fun p => p.1.name == n)).map Prod.snd) =
        (rooms.filter (fun r => r.name == n)).flatMap
          (matchingStudents students)
  | [] => rfl
  | r :: rooms => by
    rw [List.flatMap_cons, List.filter_append, List.map_append,
        innerGroupStudents_list students n rooms, List.filter_cons]
    rw [innerBlockContrib r n (matchingStudents students r)]
    cases hc : (r.name == n) <;> simp [hc]

/-- Concatenating the matched students of rooms with pairwise distinct
ids is, up to permutation, one filter over the students table. -/
theorem flatMap_matching_perm (students : List Student) :
    ∀ rooms : List Room, (rooms.map Room.id).Nodup →
      (rooms.flatMap (matchingStudents students)).Perm
        (students.filter
          (fun st => rooms.any (fun r => st.room == r.id)))
  | [], _ => by simp
  | r :: rooms, h => by
    rw [List.map_cons, List.nodup_cons] at h
    have ih := flatMap_matching_perm students rooms h.2
    have hsplit := filter_or_perm (fun st => st.room == r.id)
      (fun st => rooms.any (fun r' => st.room == r'.id)) students ?hdisj
    case hdisj =>
      rintro st _ ⟨h1, h2⟩
      obtain ⟨r', hr', he'⟩ := List.any_eq_true.mp h2
      exact h.1 (List.mem_map.mpr
        ⟨r', hr', by
          rw [beq_iff_eq] at h1 he'
          rw [← he', ← h1]⟩)
    rw [List.flatMap_cons]
    have hgoal : students.filter
        (fun st => (r :: rooms).any (fun r' => st.room == r'.id)) =
        students.filter (fun st =>
          (st.room == r.id) || rooms.any (fun r' => st.room == r'.id)) := by
      simp only [List.any_cons]
    rw [hgoal]
    exact (List.Perm.append_left (matchingStudents students r) ih).trans
      hsplit.symm

/-- A room-name group of the left join holds, up to permutation, exactly
the students assigned to any room carrying that name. -/
theorem groupStudents_perm (s : DbState) (n : String) (h : IdsNodup s) :
    (groupStudents s n).Perm (semStudents s n) := by
  have hnd : ((roomsNamed s n).map Room.id).Nodup :=
    List.Nodup.sublist (List.Sublist.map Room.id (List.filter_sublist _)) h
  rw [groupStudents, leftJoinRows, leftJoinList,
      groupStudents_list s.students n s.rooms]
  exact flatMap_matching_perm s.students (roomsNamed s n) hnd

/-- The inner-join analogue of `groupStudents_perm`. -/
theorem innerGroupStudents_perm (s : DbState) (n : String)
    (h : IdsNodup s) :
    (innerGroupStudents s n).Perm (semStudents s n) := by
  have hnd : ((roomsNamed s n).map Room.id).Nodup :=
    List.Nodup.sublist (List.Sublist.map Room.id (List.filter_sublist _)) h
  rw [innerGroupStudents, innerJoinRows, innerJoinList,
      innerGroupStudents_list s.students n s.rooms]
  exact flatMap_matching_perm s.students (roomsNamed s n) hnd

/-! ### MAX / MIN / AVG lemmas -/

/-- Defining equation of `qmax` on a singleton. -/
theorem qmax_singleton (a : ℚ) : qmax [a] = a := rfl

/-- Defining equation of `qmax` on two or more elements. -/
theorem qmax_cons_cons (a b : ℚ) (l : List ℚ) :
    qmax (a :: b :: l) = max a (qmax (b :: l)) := rfl

/-- Defining equation of `qmin` on a singleton. -/
theorem qmin_singleton (a : ℚ) : qmin [a] = a := rfl

/-- Defining equation of `qmin` on two or more elements. -/
theorem qmin_cons_cons (a b : ℚ) (l : List ℚ) :
    qmin (a :: b :: l) = min a (qmin (b :: l)) := rfl

/-- Every element is at most the maximum. -/
theorem le_qmax : ∀ l : List ℚ, ∀ x ∈ l, x ≤ qmax l
  | [a], x, hx => by
    rw [List.mem_singleton.mp hx, qmax_singleton]
  | a :: b :: ts, x, hx => by
    rw [qmax_cons_cons]
    rcases List.mem_cons.mp hx with rfl | hx'
    · exact le_max_left _ _
    · exact le_trans (le_qmax (b :: ts) x hx') (le_max_right _ _)

/-- The maximum of a nonempty list is one of its elements. -/
theorem qmax_mem : ∀ l : List ℚ, l ≠ [] → qmax l ∈ l
  | [], h => absurd rfl h
  | [a], _ => by rw [qmax_singleton]; exact List.mem_singleton_self a
  | a :: b :: ts, _ => by
    rw [qmax_cons_cons]
    rcases max_choice a (qmax (b :: ts)) with h | h <;> rw [h]
    · exact List.mem_cons_self _ _
    · exact List.mem_cons_of_mem a (qmax_mem (b :: ts) (List.cons_ne_nil b ts))

/-- The maximum only depends on the multiset of elements. -/
theorem qmax_perm {l l' : List ℚ} (h : l.Perm l') : qmax l = qmax l' := by
  cases l with
  | nil =>
    rw [h.nil_eq]
  | cons a ts =>
    have hne : a :: ts ≠ [] := List.cons_ne_nil a ts
    have hne' : l' ≠ [] := by
      intro he
      rw [he] at h
      exact hne h.eq_nil
    exact le_antisymm
      (le_qmax l' _ (h.subset (qmax_mem _ hne)))
      (le_qmax (a :: ts) _ (h.symm.subset (qmax_mem _ hne')))

/-- Dividing every element by a nonnegative constant divides the
maximum. -/
theorem qmax_map_div (c : ℚ) (hc : 0 ≤ c) :
    ∀ l : List ℚ, qmax (l.map (· / c)) = qmax l / c
  | [] => by simp [qmax]
  | [a] => rfl
  | a :: b :: ts => by
    have ih := qmax_map_div c hc (b :: ts)
    show qmax (a / c :: (b / c) :: ts.map (· / c)) = qmax (a :: b :: ts) / c
    rw [qmax_cons_cons, qmax_cons_cons]
    rw [show (b / c) :: ts.map (· / c) = (b :: ts).map (· / c) from rfl, ih]
    exact max_div_div_right hc a (qmax (b :: ts))

/-- Every element is at least the minimum. -/
theorem qmin_le : ∀ l : List ℚ, ∀ x ∈ l, qmin l ≤ x
  | [a], x, hx => by
    rw [List.mem_singleton.mp hx, qmin_singleton]
  | a :: b :: ts, x, hx => by
    rw [qmin_cons_cons]
    rcases List.mem_cons.mp hx with rfl | hx'
    · exact min_le_left _ _
    · exact le_trans (min_le_right _ _) (qmin_le (b :: ts) x hx')

/-- The minimum of a nonempty list is one of its elements. -/
theorem qmin_mem : ∀ l : List ℚ, l ≠ [] → qmin l ∈ l
  | [], h => absurd rfl h
  | [a], _ => by rw [qmin_singleton]; exact List.mem_singleton_self a
  | a :: b :: ts, _ => by
    rw [qmin_cons_cons]
    rcases min_choice a (qmin (b :: ts)) with h | h <;> rw [h]
    · exact List.mem_cons_self _ _
    · exact List.mem_cons_of_mem a (qmin_mem (b :: ts) (List.cons_ne_nil b ts))

/-- The minimum only depends on the multiset of elements. -/
theorem qmin_perm {l l' : List ℚ} (h : l.Perm l') : qmin l = qmin l' := by
  cases l with
  | nil =>
    rw [h.nil_eq]
  | cons a ts =>
    have hne : a :: ts ≠ [] := List.cons_ne_nil a ts
    have hne' : l' ≠ [] := by
      intro he
      rw [he] at h
      exact hne h.eq_nil
    exact le_antisymm
      (qmin_le (a :: ts) _ (h.symm.subset (qmin_mem _ hne')))
      (qmin_le l' _ (h.subset (qmin_mem _ hne)))

/-- Dividing every element by a nonnegative constant divides the
minimum. -/
theorem qmin_map_div (c : ℚ) (hc : 0 ≤ c) :
    ∀ l : List ℚ, qmin (l.map (· / c)) = qmin l / c
  | [] => by simp [qmin]
  | [a] => rfl
  | a :: b :: ts => by
    have ih := qmin_map_div c hc (b :: ts)
    show qmin (a / c :: (b / c) :: ts.map (· / c)) = qmin (a :: b :: ts) / c
    rw [qmin_cons_cons, qmin_cons_cons]
    rw [show (b / c) :: ts.map (· / c) = (b :: ts).map (· / c) from rfl, ih]
    exact min_div_div_right hc a (qmin (b :: ts))

/-- Dividing every element by a constant divides the sum (division by
zero maps everything to zero on both sides). -/
theorem sum_map_div (c : ℚ) : ∀ l : List ℚ, (l.map (· / c)).sum = l.sum / c
  | [] => by simp
  | a :: l => by simp [sum_map_div c l, add_div]

/-! ### Grouping-key lemmas -/

/-- A `filterMap` that keeps exactly the elements satisfying a predicate
is the filter followed by the kept value. -/
theorem filterMap_eq_map_filter {α β : Type} (f : α → Option β)
    (p : α → Bool) (g : α → β) :
    ∀ l : List α, (∀ a ∈ l, f a = if p a then some (g a) else none) →
      l.filterMap f = (l.filter p).map g
  | [], _ => rfl
  | a :: l, h => by
    have ih := filterMap_eq_map_filter f p g l
      (fun b hb => h b (List.mem_cons_of_mem a hb))
    have ha := h a (List.mem_cons_self a l)
    rw [List.filterMap_cons, List.filter_cons]
    cases hp : p a with
    | true =>
      rw [hp] at ha
      simp only [if_pos rfl] at ha
      simp [ha, ih, hp]
    | false =>
      rw [hp] at ha
      simp only [Bool.false_eq_true, if_neg] at ha
      simp [ha, ih, hp]

/-- A name is a left-join grouping key iff some room carries it. -/
theorem mem_groupNames {s : DbState} {n : String} :
    n ∈ groupNames s ↔ ∃ r ∈ s.rooms, r.name = n := by
  simp [groupNames, List.mem_dedup, List.mem_map]

/-- The name-group of `n` is inhabited iff some student is assigned to a
room named `n`. -/
theorem semStudents_ne_nil_iff {s : DbState} {n : String} :
    semStudents s n ≠ [] ↔
      ∃ st ∈ s.students, ∃ r ∈ s.rooms, r.name = n ∧ st.room = r.id := by
  rw [← List.length_pos_iff_ne_nil, List.length_pos_iff_exists_mem]
  constructor
  · rintro ⟨st, hst⟩
    rw [semStudents, List.mem_filter] at hst
    obtain ⟨r, hr, hroom⟩ := List.any_eq_true.mp hst.2
    rw [roomsNamed, List.mem_filter] at hr
    exact ⟨st, hst.1, r, hr.1, beq_iff_eq.mp hr.2, beq_iff_eq.mp hroom⟩
  · rintro ⟨st, hst, r, hr, hname, hroom⟩
    refine ⟨st, ?_⟩
    rw [semStudents, List.mem_filter]
    refine ⟨hst, List.any_eq_true.mpr ⟨r, ?_, beq_iff_eq.mpr hroom⟩⟩
    rw [roomsNamed, List.mem_filter]
    exact ⟨hr, beq_iff_eq.mpr hname⟩

/-- A name is an inner-join grouping key iff it is a room name whose
name-group is inhabited. -/
theorem mem_innerNames_iff {s : DbState} {n : String} :
    n ∈ innerNames s ↔ n ∈ groupNames s ∧ semStudents s n ≠ [] := by
  rw [mem_groupNames, semStudents_ne_nil_iff, innerNames, List.mem_dedup,
      List.mem_map]
  constructor
  · rintro ⟨⟨r, st⟩, hmem, hname⟩
    rw [innerJoinRows, innerJoinList, List.mem_flatMap] at hmem
    obtain ⟨r', hr', hmem'⟩ := hmem
    rw [List.mem_map] at hmem'
    obtain ⟨st', hst', heq⟩ := hmem'
    have hr'r : r' = r := congrArg Prod.fst heq
    have hst'st : st' = st := congrArg Prod.snd heq
    subst hr'r
    subst hst'st
    rw [matchingStudents, List.mem_filter] at hst'
    have hnm : r'.name = n := hname
    exact ⟨⟨r', hr', hnm⟩,
           st', hst'.1, r', hr', hnm, beq_iff_eq.mp hst'.2⟩
  · rintro ⟨_, st, hst, r, hr, hname, hroom⟩
    refine ⟨(r, st), ?_, hname⟩
    rw [innerJoinRows, innerJoinList, List.mem_flatMap]
    refine ⟨r, hr, List.mem_map.mpr ⟨st, ?_, rfl⟩⟩
    rw [matchingStudents, List.mem_filter]
    exact ⟨hst, beq_iff_eq.mpr hroom⟩

/-- The inner-join grouping keys are, up to permutation, the left-join
grouping keys whose name-group is inhabited. -/
theorem innerNames_perm (s : DbState) :
    (innerNames s).Perm
      ((groupNames s).filter (fun n => decide (semStudents s n ≠ []))) := by
  have h1 : (innerNames s).Nodup := List.nodup_dedup _
  have h2 : ((groupNames s).filter
      (fun n => decide (semStudents s n ≠ []))).Nodup :=
    (List.nodup_dedup _).filter _
  refine (List.perm_ext_iff_of_nodup h1 h2).mpr ?_
  intro n
  rw [List.mem_filter, decide_eq_true_eq, mem_innerNames_iff]

/-- Rounding fixes zero. -/
theorem round3_zero : round3 0 = 0 := by
  rw [round3, if_pos le_rfl]
  norm_num

/-- `365.25` is nonnegative. -/
theorem yearDays_nonneg : (0 : ℚ) ≤ yearDays := by
  rw [yearDays]; norm_num

/-! ### Task 1: occupancy -/

/-- C3 (amended): the occupancy query returns one pair per *distinct room
name* — same-named rooms are merged by `GROUP BY Rooms.name` — pairing
the name with the count of students assigned to any room carrying it, and
the returned sequence is sorted by count descending. -/
theorem C3_occupancy_grouped_by_name (s : DbState) (h : IdsNodup s) :
    (task1 s).Perm (task1Sem s) ∧ List.Sorted cntDesc (task1 s) := by
  have hmap : (groupNames s).map (task1Row s) = task1Sem s := by
    apply List.map_congr_left
    intro n _
    rw [task1Row]
    have h1 : ((leftJoinRows s).filter (fun p => p.1.name == n)).countP
        (fun p => p.2.isSome) = (groupStudents s n).length :=
      (length_filterMap_eq_countP Prod.snd _).symm
    rw [h1, (groupStudents_perm s n h).length_eq]
    rfl
  constructor
  · rw [task1, hmap]
    exact List.perm_insertionSort cntDesc (task1Sem s)
  · exact List.sorted_insertionSort cntDesc _

/-- Witness for C3 at the unit-test fixture store. -/
theorem C3_occupancy_grouped_by_name_witness :
    (task1 fixtureDb).Perm (task1Sem fixtureDb) ∧
    List.Sorted cntDesc (task1 fixtureDb) :=
  C3_occupancy_grouped_by_name fixtureDb (by decide)

/-- Counterexample to C3 as stated: with two distinct rooms sharing the
name `"A"` and one student in each, the occupancy query returns a single
pair `("A", 2)` — not one pair per room, and its count `2` is the count
of neither room (each has exactly one student). -/
theorem C3_counterexample :
    dupNameDb.rooms.length = 2 ∧
    (task1 dupNameDb).length = 1 ∧
    task1 dupNameDb = [("A", 2)] ∧
    (dupNameDb.students.filter (fun st => st.room == 1)).length = 1 ∧
    (dupNameDb.students.filter (fun st => st.room == 2)).length = 1 := by
  refine ⟨rfl, rfl, ?_, rfl, rfl⟩
  decide

/-! ### Task 2: youngest average -/

/-- C5 (amended): the youngest-average query considers one group per
*distinct room name* with at least one assigned student (same-named rooms
are merged, rooms with no students are excluded by the NULL-average
filter), computes the mean student age of the group as
`(now − birthday) / 365.25` rounded to three decimals, and returns the
first 5 groups of the ascending-by-average order. -/
theorem C5_youngest_average_grouped_by_name (jd : String → ℚ) (now : ℚ)
    (s : DbState) (h : IdsNodup s) :
    ∃ l : List (String × ℚ), l.Perm (task2Sem jd now s) ∧
      List.Sorted avgAsc l ∧ task2 jd now s = l.take 5 := by
  have hbase : (groupNames s).filterMap
      (fun n => (task2Avg jd now s n).map (fun a => (n, a))) =
      task2Sem jd now s := by
    refine filterMap_eq_map_filter _ _ _ (groupNames s) ?_
    intro n _
    by_cases hne : semStudents s n = []
    · have hgrp : groupStudents s n = [] := by
        have := (groupStudents_perm s n h).length_eq
        rw [hne] at this
        exact List.length_eq_zero.mp this
      rw [task2Avg.eq_def, hgrp]
      simp [hne]
    · have hgrp : groupStudents s n ≠ [] := by
        intro he
        have := (groupStudents_perm s n h).length_eq
        rw [he] at this
        exact hne (List.length_eq_zero.mp this.symm)
      have hp : (decide (semStudents s n ≠ [])) = true := decide_eq_true hne
      rw [hp, if_pos rfl]
      cases hgs : groupStudents s n with
      | nil => exact absurd hgs hgrp
      | cons m ms =>
        rw [task2Avg.eq_def, hgs]
        have hperm : (m :: ms).Perm (semStudents s n) := by
          rw [← hgs]; exact groupStudents_perm s n h
        have hsum : ((m :: ms).map (ageDays jd now)).sum =
            ((semStudents s n).map (ageDays jd now)).sum :=
          (hperm.map (ageDays jd now)).sum_eq
        have hlen : ((m :: ms).length : ℚ) =
            ((semStudents s n).length : ℚ) := by
          exact_mod_cast congrArg Nat.cast hperm.length_eq
        have hyears : ((semStudents s n).map (ageYears jd now)).sum =
            ((semStudents s n).map (ageDays jd now)).sum / yearDays := by
          rw [← sum_map_div yearDays ((semStudents s n).map (ageDays jd now)),
              List.map_map]
          rfl
        have harith :
            ((m :: ms).map (ageDays jd now)).sum /
              (((m :: ms).length : ℚ)) / yearDays =
            ((semStudents s n).map (ageYears jd now)).sum /
              ((semStudents s n).length : ℚ) := by
          rw [hyears, hsum, hlen, div_div, div_div, mul_comm]
        rw [Option.map_some']
        show some (n, round3 _) = some (n, semAvgAge jd now s n)
        rw [semAvgAge, harith]
  refine ⟨List.insertionSort avgAsc ((groupNames s).filterMap
      (fun n => (task2Avg jd now s n).map (fun a => (n, a)))), ?_, ?_, rfl⟩
  · rw [hbase] at *
    have := List.perm_insertionSort avgAsc (task2Sem jd now s)
    rwa [← hbase] at this
  · exact List.sorted_insertionSort avgAsc _

/-- Witness for C5 at the unit-test fixture store. -/
theorem C5_youngest_average_grouped_by_name_witness :
    ∃ l : List (String × ℚ), l.Perm (task2Sem jdC nowC fixtureDb) ∧
      List.Sorted avgAsc l ∧ task2 jdC nowC fixtureDb = l.take 5 :=
  C5_youngest_average_grouped_by_name jdC nowC fixtureDb (by decide)

/-- Counterexample to C5 as stated: with two distinct rooms sharing the
name `"A"`, one housing a single student aged 10 years and the other a
single student aged 20 years, the query returns the single merged pair
`("A", 15)` — the mean age of neither room. -/
theorem C5_counterexample :
    task2 jdC nowC dupNameDb = [("A", 15)] ∧
    ageYears jdC nowC ⟨1, "Alice", "b0", "F", 1⟩ = 10 ∧
    ageYears jdC nowC ⟨2, "Bob", "b1", "M", 2⟩ = 20 := by
  have hb0 : ¬ ("b0" : String) = "b1" := by decide
  have hgs : groupStudents dupNameDb "A" =
      [⟨1, "Alice", "b0", "F", 1⟩, ⟨2, "Bob", "b1", "M", 2⟩] := by decide
  have hgn : groupNames dupNameDb = ["A"] := by decide
  have hv : task2Avg jdC nowC dupNameDb "A" = some 15 := by
    have h1 : task2Avg jdC nowC dupNameDb "A" =
        some (round3 (((([⟨1, "Alice", "b0", "F", 1⟩,
            ⟨2, "Bob", "b1", "M", 2⟩] : List Student).map
              (ageDays jdC nowC)).sum /
            (([⟨1, "Alice", "b0", "F", 1⟩,
              ⟨2, "Bob", "b1", "M", 2⟩] : List Student).length : ℚ)) /
            yearDays)) := by
      rw [task2Avg.eq_def, hgs]
    rw [h1]
    congr 1
    rw [List.map_cons, List.map_cons, List.map_nil]
    rw [ageDays, ageDays, jdC, jdC, nowC, yearDays, round3]
    rw [if_neg hb0, if_pos rfl]
    norm_num
  refine ⟨?_, ?_, ?_⟩
  · rw [task2, hgn, List.filterMap_cons, hv]
    rw [List.filterMap_nil, Option.map_some']
    rfl
  · rw [ageYears, ageDays, jdC, nowC, yearDays]
    rw [if_neg hb0]
    norm_num
  · rw [ageYears, ageDays, jdC, nowC, yearDays]
    rw [if_pos rfl]
    norm_num

/-! ### Task 3: largest age spread -/

/-- C6 (amended): the age-spread query considers one group per *distinct
room name* with at least one assigned student (inner join; same-named
rooms are merged), computes `max(age) − min(age)` in years rounded to
three decimals, and returns the first 5 groups of the
descending-by-spread order; a name-group holding exactly one student has
spread `0.000` and is an eligible candidate. -/
theorem C6_age_spread_grouped_by_name (jd : String → ℚ) (now : ℚ)
    (s : DbState) (h : IdsNodup s) :
    (∃ l : List (String × ℚ), l.Perm (task3Sem jd now s) ∧
        List.Sorted spreadDesc l ∧ task3 jd now s = l.take 5) ∧
    (∀ n st, semStudents s n = [st] →
        (n, (0 : ℚ)) ∈ task3Sem jd now s) := by
  have hpoint : ∀ n, task3Spread jd now s n = semSpread jd now s n := by
    intro n
    rw [task3Spread, semSpread]
    have hperm : ((innerGroupStudents s n).map (ageDays jd now)).Perm
        ((semStudents s n).map (ageDays jd now)) :=
      (innerGroupStudents_perm s n h).map (ageDays jd now)
    have hyy : (semStudents s n).map (ageYears jd now) =
        ((semStudents s n).map (ageDays jd now)).map (· / yearDays) := by
      rw [List.map_map]; rfl
    rw [hyy, qmax_map_div yearDays yearDays_nonneg,
        qmin_map_div yearDays yearDays_nonneg,
        qmax_perm hperm, qmin_perm hperm]
  constructor
  · have hbase : (innerNames s).map
        (fun n => (n, task3Spread jd now s n)) =
        (innerNames s).map (fun n => (n, semSpread jd now s n)) := by
      apply List.map_congr_left
      intro n _
      rw [hpoint n]
    refine ⟨List.insertionSort spreadDesc ((innerNames s).map
        (fun n => (n, task3Spread jd now s n))), ?_, ?_, rfl⟩
    · refine (List.perm_insertionSort spreadDesc _).trans ?_
      rw [hbase, task3Sem]
      exact (innerNames_perm s).map _
    · exact List.sorted_insertionSort spreadDesc _
  · intro n st hst
    have hne : semStudents s n ≠ [] := by rw [hst]; exact List.cons_ne_nil st []
    obtain ⟨st', _, r, hr, hname, _⟩ := semStudents_ne_nil_iff.mp hne
    have hgn : n ∈ groupNames s := mem_groupNames.mpr ⟨r, hr, hname⟩
    have hval : semSpread jd now s n = 0 := by
      rw [semSpread, hst, List.map_singleton, qmax_singleton, qmin_singleton,
          sub_self, round3_zero]
    rw [task3Sem]
    refine List.mem_map.mpr ⟨n, List.mem_filter.mpr ⟨hgn, decide_eq_true hne⟩,
      ?_⟩
    rw [hval]

/-- Witness for C6 at the unit-test fixture store (room `"Room C"` houses
exactly one student). -/
theorem C6_age_spread_grouped_by_name_witness :
    (∃ l : List (String × ℚ), l.Perm (task3Sem jdC nowC fixtureDb) ∧
        List.Sorted spreadDesc l ∧ task3 jdC nowC fixtureDb = l.take 5) ∧
    (∀ n st, semStudents fixtureDb n = [st] →
        (n, (0 : ℚ)) ∈ task3Sem jdC nowC fixtureDb) :=
  C6_age_spread_grouped_by_name jdC nowC fixtureDb (by decide)

/-- Counterexample to C6 as stated: two distinct rooms named `"A"`, each
housing exactly one student (ages 10 and 20 years) — per the claim each
of the two rooms has spread `0.000`, yet the query returns the single
merged pair `("A", 10)`. -/
theorem C6_counterexample :
    task3 jdC nowC dupNameDb = [("A", 10)] ∧
    (dupNameDb.students.filter (fun st => st.room == 1)).length = 1 ∧
    (dupNameDb.students.filter (fun st => st.room == 2)).length = 1 := by
  have hb0 : ¬ ("b0" : String) = "b1" := by decide
  have hgs : innerGroupStudents dupNameDb "A" =
      [⟨1, "Alice", "b0", "F", 1⟩, ⟨2, "Bob", "b1", "M", 2⟩] := by decide
  have hin : innerNames dupNameDb = ["A"] := by decide
  have hv : task3Spread jdC nowC dupNameDb "A" = 10 := by
    rw [task3Spread, hgs]
    rw [List.map_cons, List.map_cons, List.map_nil]
    rw [qmax_cons_cons, qmax_singleton, qmin_cons_cons, qmin_singleton]
    rw [ageDays, ageDays, jdC, jdC, nowC, yearDays, round3]
    rw [if_neg hb0, if_pos rfl]
    norm_num [max_def, min_def]
  refine ⟨?_, rfl, rfl⟩
  rw [task3, hin, List.map_cons, List.map_nil, hv]
  rfl

/-! ### Task 4: mixed-sex rooms -/

/-- C7 (amended): the mixed-sex query returns exactly the *distinct room
names* whose merged name-group of students (all students assigned to any
room carrying the name) has strictly more than one distinct sex label;
only names are returned and no ordering is guaranteed. -/
theorem C7_mixed_sex_grouped_by_name (s : DbState) (n : String)
    (h : IdsNodup s) :
    n ∈ task4 s ↔ n ∈ groupNames s ∧ 1 < semSexCount s n := by
  have hcnt : distinctSexCount s n = semSexCount s n := by
    rw [distinctSexCount, semSexCount]
    exact ((groupStudents_perm s n h).map Student.sex).dedup.length_eq
  rw [task4, List.mem_filter, decide_eq_true_eq, hcnt]

/-- Witness for C7 at the unit-test fixture store: room `"Room A"` houses
the sexes F and M and is reported. -/
theorem C7_mixed_sex_grouped_by_name_witness :
    "Room A" ∈ task4 fixtureDb ↔
      "Room A" ∈ groupNames fixtureDb ∧
        1 < semSexCount fixtureDb "Room A" :=
  C7_mixed_sex_grouped_by_name fixtureDb "Room A" (by decide)

/-- Counterexample to C7 as stated: two distinct rooms named `"A"`, one
housing only an F student, the other only an M student — neither room's
own students carry more than one sex label, yet `"A"` is returned because
`GROUP BY Rooms.name` merges the two rooms. -/
theorem C7_counterexample :
    task4 dupNameDb = ["A"] ∧
    ((dupNameDb.students.filter
        (fun st => st.room == 1)).map Student.sex).dedup.length = 1 ∧
    ((dupNameDb.students.filter
        (fun st => st.room == 2)).map Student.sex).dedup.length = 1 := by
  refine ⟨?_, rfl, rfl⟩
  decide

/-! ### Pipeline orchestration -/

/-- C9: every run attempts a prefix of the canonical stage order (so a
failed stage is final: nothing later runs and no stage repeats); when the
student batch fails on a duplicate id after the rooms committed, the
pipeline halts at the student insert with the committed rooms intact and
no student row visible; an unreadable input and an empty input both halt
the run with distinct operator messages. -/
theorem C9_pipeline_halts_in_order :
    (∀ rr sr db f isXml dbc jd now,
        ∃ t, (mainRun rr sr db f isXml dbc jd now).attempted ++ t =
          pipelineOrder) ∧
    (∀ rr sr db f isXml dbc jd now,
        (mainRun rr sr db f isXml dbc jd now).attempted.Nodup) ∧
    (∀ (rooms : List (Int × String)) (students : List StudentTup) db isXml
        jd now,
        (rooms.map Prod.fst).Nodup →
        ¬ (students.map Prod.fst).Nodup →
        (mainRun (.parsed rooms) (.parsed students) db noFaults isXml false
            jd now).attempted =
          [.readInputs, .clearStore, .insertRoomsStage,
           .insertStudentsStage] ∧
        (mainRun (.parsed rooms) (.parsed students) db noFaults isXml false
            jd now).finalDb.rooms = rooms.map roomOfTup ∧
        (mainRun (.parsed rooms) (.parsed students) db noFaults isXml false
            jd now).finalDb.students = []) ∧
    (∀ sr db f isXml dbc jd now,
        (mainRun .raise sr db f isXml dbc jd now).msgs = [readFailMsg]) ∧
    (∀ (sdata : List StudentTup) db f isXml dbc jd now,
        (mainRun .emptyFile (.parsed sdata) db f isXml dbc jd now).msgs =
          [roomsEmptyMsg]) ∧
    readFailMsg ≠ roomsEmptyMsg := by
  refine ⟨?_, ?_, ?_, ?_, ?_, ?_⟩
  · intro rr sr db f isXml dbc jd now
    unfold mainRun
    dsimp only
    repeat' split
    all_goals exact ⟨_, rfl⟩
  · intro rr sr db f isXml dbc jd now
    unfold mainRun
    dsimp only
    repeat' split
    all_goals dsimp only
    all_goals decide
  · intro rooms students db isXml jd now hnd hdup
    have hok : rawBulkInsert Room.id roomOfTup
        ([] : List Room) rooms = .ok ([] ++ rooms.map roomOfTup) :=
      rawBulkInsert_ok_of_nodup Room.id roomOfTup rooms [] hnd
        (fun t _ r hr => absurd hr (List.not_mem_nil r))
    rw [List.nil_append] at hok
    have herr : rawBulkInsert Student.id studentOfTup
        ([] : List Student) students = .error .integrityError :=
      rawBulkInsert_error_of_dup Student.id studentOfTup students [] hdup
    have hrun : mainRun (.parsed rooms) (.parsed students) db noFaults isXml
        false jd now =
        ⟨[insertFailMsg],
         [.readInputs, .clearStore, .insertRoomsStage, .insertStudentsStage],
         ⟨db.tables, rooms.map roomOfTup, [],
          dropIndex (dropIndex db.indexes roomIdx) bdayIdx⟩⟩ := by
      rw [mainRun]
      rw [show noFaults.clearFails = false from rfl]
      simp only [Bool.false_eq_true, if_false]
      rw [insert_rooms]
      dsimp only [clear_tables]
      rw [hok]
      dsimp only
      rw [insert_students]
      dsimp only
      rw [herr]
    rw [hrun]
    exact ⟨rfl, rfl, rfl⟩
  · intro sr db f isXml dbc jd now
    rfl
  · intro sdata db f isXml dbc jd now
    rfl
  · decide

/-- Witness for C9's committed-rooms conjunct at concrete batches: the
room batch commits, the duplicate student batch fails, and the run halts
at the student-insert stage with the rooms still visible. -/
theorem C9_pipeline_halts_in_order_witness :
    (mainRun (.parsed [(1, "A")])
        (.parsed [(1, "Bob", "b0", "M", 1), (1, "Eve", "b0", "F", 1)])
        emptyDb noFaults false false jdC nowC).attempted =
      [.readInputs, .clearStore, .insertRoomsStage, .insertStudentsStage] ∧
    (mainRun (.parsed [(1, "A")])
        (.parsed [(1, "Bob", "b0", "M", 1), (1, "Eve", "b0", "F", 1)])
        emptyDb noFaults false false jdC nowC).finalDb.rooms =
      [(1, "A")].map roomOfTup ∧
    (mainRun (.parsed [(1, "A")])
        (.parsed [(1, "Bob", "b0", "M", 1), (1, "Eve", "b0", "F", 1)])
        emptyDb noFaults false false jdC nowC).finalDb.students = [] :=
  C9_pipeline_halts_in_order.2.2.1 [(1, "A")]
    [(1, "Bob", "b0", "M", 1), (1, "Eve", "b0", "F", 1)]
    emptyDb false jdC nowC (by decide) (by decide)

end Innowise
